import Mathlib

/-!
Shallow embedding of the quickunit nose plugin core
(src/quickunit/plugin.py): change-set construction from a parsed diff
(QuickUnitPlugin.begin), test selection (QuickUnitPlugin.wantMethod),
per-test coverage recording (QuickUnitPlugin.record_coverage_data) and
report assembly (QuickUnitPlugin._report_test_coverage /
QuickUnitPlugin.report).

Python dicts keyed by strings are embedded as association lists; the
defaultdicts of the plugin are embedded with explicit get-or-default
operations that record the auto-vivification side effect.  Sets of line
numbers are Finset Nat.  Dicts with 0/1 values (the per-test report
leaves) are embedded as a pair of Finsets (zeros, ones) with dict-update
semantics.
-/

/-- Kernel-friendly string prefix test (s starts with p). -/
def strStartsWith (s p : String) : Bool :=
  List.isPrefixOf p.data s.data

/-- Kernel-friendly string suffix test (s ends with p). -/
def strEndsWith (s p : String) : Bool :=
  List.isSuffixOf p.data s.data

/-- Kernel-friendly drop of the first n characters (Python s[n:]). -/
def strDrop (s : String) (n : Nat) : String :=
  String.mk (s.data.drop n)

/-- Number of characters of a string. -/
def strLen (s : String) : Nat :=
  s.data.length

/-- Everything before the last dot; the whole string when there is no dot
(Python s.rsplit(Chr.dot, 1)[0] as used in QuickUnitPlugin.begin). -/
def stripExt (s : String) : String :=
  let r := s.data.reverse
  if r.contains (Char.ofNat 46) then
    String.mk (((r.dropWhile (fun c => c ≠ Char.ofNat 46)).drop 1).reverse)
  else s

/-- os.path.join as used with the configured test prefixes. -/
def pathJoin (a b : String) : String :=
  if strStartsWith b ("/") then b
  else if a = ("") then b
  else if strEndsWith a ("/") then a ++ b
  else a ++ ("/") ++ b

/-- Modelled from the spec: quickunit.utils.is_py_script is not under src/;
per the spec a changed file is kept only when it is a recognized Python
source file. -/
def is_py_script (filename : String) : Bool :=
  strEndsWith filename (".py")

/-- Set-flavoured insertion into a list (Python set.add). -/
def setAdd (l : List String) (s : String) : List String :=
  if s ∈ l then l else l ++ [s]

/-- Association-list lookup (first binding wins, like a dict read). -/
def alLookup {β : Type} : List (String × β) → String → Option β
  | [], _ => none
  | p :: rest, k => if p.1 = k then some p.2 else alLookup rest k

/-- Association-list write (dict d[k] = v): replace the existing binding
or append a fresh one. -/
def alSet {β : Type} (d : List (String × β)) (k : String) (v : β) : List (String × β) :=
  if (alLookup d k).isSome then
    d.map (fun p => if p.1 = k then (k, v) else p)
  else d ++ [(k, v)]

/-- The plugin's diff_data: a defaultdict(set) from filename to changed
line numbers. -/
abbrev DD := List (String × Finset Nat)

/-- Read of a defaultdict(set) without materializing the key. -/
def ddFind (d : DD) (k : String) : Finset Nat :=
  (alLookup d k).getD ∅

/-- Subscript read of a defaultdict(set) (d[k]): returns the value and the
dict with the key auto-vivified to the empty set when it was absent. -/
def ddGetE (d : DD) (k : String) : Finset Nat × DD :=
  ((alLookup d k).getD ∅,
    if (alLookup d k).isSome then d else d ++ [(k, ∅)])

/-- d[k].update(s) on a defaultdict(set): union into the existing set,
materializing the key when absent (even when s is empty). -/
def ddSetUnion (d : DD) (k : String) (s : Finset Nat) : DD :=
  alSet d k (ddFind d k ∪ s)

/-- Line kind of a parsed diff line. -/
inductive LAction
  | add
  | del
  | unchanged
deriving DecidableEq

/-- Modelled from the spec: quickunit.diff.DiffParser is not under src/.
Per the spec a parsed diff line carries a kind (context, added or
removed), a new-file line number assigned only to context and added
lines, and the line's text; the plugin reads the new_lineno and line
fields. -/
structure DiffLine where
  action : LAction
  new_lineno : Option Nat
  line : String
deriving DecidableEq

/-- Modelled from the spec: one file's entry as produced by the diff
parser, read by QuickUnitPlugin.begin through the is_header,
old_filename, new_filename and chunks fields. -/
structure FileDiff where
  is_header : Bool
  old_filename : String
  new_filename : String
  chunks : List (List DiffLine)
deriving DecidableEq

/-- The line numbers one chunk contributes in QuickUnitPlugin.begin:
filter(bool, (l[newLineno] for l in chunk if l[line])) keeps lines with
nonempty text and a truthy new_lineno. -/
def chunkLinenos (chunk : List DiffLine) : List Nat :=
  chunk.filterMap (fun l =>
    if l.line ≠ ("") then
      match l.new_lineno with
      | some n => if n = 0 then none else some n
      | none => none
    else none)

/-- State built by QuickUnitPlugin.begin: diff_data, pending_files and the
filesystem root. -/
structure BeginSt where
  diff_data : DD
  pending_files : List String
  root : Option String
deriving DecidableEq

/-- One iteration of the file loop of QuickUnitPlugin.begin (plugin.py
lines 140-181); cwd stands for the current directory used by
os.path.abspath. -/
def beginStep (pfxs : List String) (cwd : String) (st : BeginSt) (file : FileDiff) : BeginSt :=
  if file.is_header then st
  else if file.new_filename = ("/dev/null") then st
  else
    let is_new_file := file.old_filename = ("/dev/null")
    let fn := if is_new_file then file.new_filename else file.old_filename
    let marker := if is_new_file then ("b/") else ("a/")
    if ¬ strStartsWith fn marker then st
    else
      let filename := strDrop fn 2
      let root := match st.root with
        | some r => some r
        | none => some (cwd ++ ("/"))
      if ¬ is_py_script filename then { st with root := root }
      else
        let new_filename := strDrop file.new_filename 2
        let dd := file.chunks.foldl
          (fun d chunk => ddSetUnion d new_filename (chunkLinenos chunk).toFinset)
          st.diff_data
        if is_new_file then { diff_data := dd, pending_files := st.pending_files, root := root }
        else
          { diff_data := dd,
            pending_files := pfxs.foldl
              (fun p pfx => setAdd p (pathJoin pfx (stripExt new_filename)))
              st.pending_files,
            root := root }

/-- QuickUnitPlugin.begin applied to the parsed file-diff records: folds
the file loop over an initially empty diff_data and pending_files. -/
def beginState (pfxs : List String) (cwd : String) (files : List FileDiff) : BeginSt :=
  files.foldl (beginStep pfxs cwd) { diff_data := [], pending_files := [], root := none }

/-- Modelled from the spec: quickunit.diff.DiffParser is not under src/;
per the spec an empty diff text parses to an empty sequence of file-diff
records. -/
def parseEmptyDiff : List FileDiff :=
  []

/-- State read and mutated by QuickUnitPlugin.wantMethod. -/
structure WState where
  pfxs : List String
  diff_data : DD
  pending_files : List String
  tests_run : List String
  root : Option String
deriving DecidableEq

/-- The prefix loop at the end of QuickUnitPlugin.wantMethod (plugin.py
lines 209-216): for each configured prefix matching the filename, add the
filename to tests_run and return true as soon as some pending test path
is a prefix of the filename. -/
def prefixLoop (st : WState) (filename : String) : List String → Bool × WState
  | [] => (false, st)
  | pfx :: rest =>
    if strStartsWith filename pfx then
      let st' := { st with tests_run := setAdd st.tests_run filename }
      if st'.pending_files.any (fun pend => strStartsWith filename pend) then (true, st')
      else prefixLoop st' filename rest
    else prefixLoop st filename rest

/-- QuickUnitPlugin.wantMethod (plugin.py lines 188-216).  absfile is the
absolute source file of the class really defining the method,
startlineno/numlines its source line range (inspect.getsourcelines).
Returns the selection verdict together with the mutated plugin state (the
defaultdict read of diff_data materializes absent keys). -/
def wantMethodBody (st : WState) (filename : String) (startlineno numlines : Nat) : Bool × WState :=
  let dres := ddGetE st.diff_data filename
  let dLines := dres.1
  let st1 := { st with diff_data := dres.2 }
  if dLines ≠ ∅ ∧ (List.range numlines).any (fun i => decide ((startlineno + i) ∈ dLines)) then
    let tr := st1.pfxs.foldl
      (fun tr pfx => if strStartsWith filename pfx then setAdd tr filename else tr)
      st1.tests_run
    (true, { st1 with tests_run := tr })
  else
    prefixLoop st1 filename st1.pfxs

/-- QuickUnitPlugin.wantMethod (plugin.py lines 188-216), root-relative
filename resolution followed by the selection body above. -/
def wantMethod (st : WState) (absfile : String) (startlineno numlines : Nat) : Bool × WState :=
  let filename := match st.root with
    | some r => if r ≠ ("") ∧ strStartsWith absfile r then strDrop absfile (strLen r) else absfile
    | none => absfile
  wantMethodBody st filename startlineno numlines

/-- QuickUnitPlugin.record_coverage_data (plugin.py lines 218-242): fold
over the reporter's code units (unit name, executed line numbers); a unit
whose filename (name + .py) has an entry in diff_data contributes the
executed lines that fall in the file's changed-line set, and the
cov_data entry is touched only when that intersection is nonempty. -/
def record_coverage_data (diff_data : DD) (code_units : List (String × Finset Nat))
    (cov_data : List (String × Finset Nat)) : List (String × Finset Nat) :=
  code_units.foldl
    (fun cd cu =>
      let filename := cu.1 ++ (".py")
      if (alLookup diff_data filename).isSome then
        let diff := ddFind diff_data filename
        let cov_linenos := cu.2 ∩ diff
        if cov_linenos = ∅ then cd
        else alSet cd filename ((alLookup cd filename).getD ∅ ∪ cov_linenos)
      else cd)
    cov_data

/-- A dict from line number to 0 or 1 (one leaf dict of the report),
embedded as the pair of its 0-keys and 1-keys; the update operations
below are dict.update with constant value. -/
structure LineDict where
  zeros : Finset Nat
  ones : Finset Nat
deriving DecidableEq

/-- dict((k, 1) for k in s). -/
def LineDict.setOnes (s : Finset Nat) : LineDict :=
  { zeros := ∅, ones := s }

/-- d.update(dict((k, 1) for k in s)). -/
def LineDict.updOnes (d : LineDict) (s : Finset Nat) : LineDict :=
  { zeros := d.zeros \ s, ones := d.ones ∪ s }

/-- d.update(dict((k, 0) for k in s)). -/
def LineDict.updZeros (d : LineDict) (s : Finset Nat) : LineDict :=
  { zeros := d.zeros ∪ s, ones := d.ones \ s }

/-- Value stored for a line number (none when the leaf is absent). -/
def LineDict.lookup (d : LineDict) (k : Nat) : Option Nat :=
  if k ∈ d.ones then some 1 else if k ∈ d.zeros then some 0 else none

/-- Key set of the leaf dict (len of the dict is its card). -/
def LineDict.keyset (d : LineDict) : Finset Nat :=
  d.zeros ∪ d.ones

/-- Number of keys of the leaf dict (Python len(lines)). -/
def LineDict.size (d : LineDict) : Nat :=
  d.keyset.card

/-- The nested report structure data: test name -> file name -> leaf dict. -/
abbrev RData := List (String × List (String × LineDict))

/-- Leaf dict stored for a test and file (none when absent). -/
def dataFile (d : RData) (t f : String) : Option LineDict :=
  (alLookup d t).bind (fun files => alLookup files f)

/-- Leaf value stored for a test, file and line (none when absent). -/
def dataLeaf (d : RData) (t f : String) (k : Nat) : Option Nat :=
  ((dataFile d t f).getD { zeros := ∅, ones := ∅ }).lookup k

/-- data[test][filename] = ld on the two-level defaultdict(dict). -/
def dataSet (d : RData) (t f : String) (ld : LineDict) : RData :=
  alSet d t (alSet ((alLookup d t).getD []) f ld)

/-- Leaf dict stored for a test and file, defaulting to the empty dict
(the get-or-create read data[test][filename] performs before an update). -/
def dataGetD (d : RData) (t f : String) : LineDict :=
  (dataFile d t f).getD { zeros := ∅, ones := ∅ }

/-- The mutable state threaded through _report_test_coverage: the (still
defaultdict) diff_data, the missing accumulator shared across tests, and
the nested report data. -/
structure RState where
  diff_data : DD
  missing : String → Finset Nat
  data : RData

/-- Pointwise update of the missing accumulator. -/
def fupd (m : String → Finset Nat) (k : String) (v : Finset Nat) : String → Finset Nat :=
  fun x => if x = k then v else m x

/-- One iteration of the per-test coverage loop of
QuickUnitPlugin._report_test_coverage (plugin.py lines 293-302): read the
file's changed lines from diff_data (a vivifying defaultdict read),
overwrite missing[filename] with the uncovered changed lines, and store
the leaf dict mapping covered lines to 1 and missing lines to 0. -/
def phase1Step (st : RState) (t : String) (fc : String × Finset Nat) : RState :=
  let dres := ddGetE st.diff_data fc.1
  let linenos := dres.1
  let miss := linenos \ fc.2
  { diff_data := dres.2,
    missing := fupd st.missing fc.1 miss,
    data := dataSet st.data t fc.1 ((LineDict.setOnes fc.2).updZeros miss) }

/-- One iteration of the import-time overlay loop of
QuickUnitPlugin._report_test_coverage (plugin.py lines 309-321): shrink
missing[filename] by the import-time covered lines, create the leaf dict
when absent, then update it with 1 for the import-time covered lines and
0 for the remaining missing lines. -/
def phase2Step (st : RState) (t : String) (fc : String × Finset Nat) : RState :=
  let miss := st.missing fc.1 \ fc.2
  let ld := dataGetD st.data t fc.1
  { diff_data := st.diff_data,
    missing := fupd st.missing fc.1 miss,
    data := dataSet st.data t fc.1 ((ld.updOnes fc.2).updZeros miss) }

/-- Processing of one test in _report_test_coverage: the per-test file
loop, then, when the test maps to a nonempty module name present in
importtime_cov_data, the import-time overlay loop. -/
def testStep (mm : List (String × String)) (itc : List (String × List (String × Finset Nat)))
    (st : RState) (tc : String × List (String × Finset Nat)) : RState :=
  let st1 := tc.2.foldl (fun s fc => phase1Step s tc.1 fc) st
  match alLookup mm tc.1 with
  | none => st1
  | some m =>
    if m = ("") then st1
    else
      match alLookup itc m with
      | none => st1
      | some icovs => icovs.foldl (fun s fc => phase2Step s tc.1 fc) st1

/-- The whole data-assembly part of QuickUnitPlugin._report_test_coverage:
fold the per-test processing over test_cov_data in iteration order. -/
def assembleState (dd : DD) (mm : List (String × String))
    (itc : List (String × List (String × Finset Nat)))
    (tcd : List (String × List (String × Finset Nat))) : RState :=
  tcd.foldl (testStep mm itc) { diff_data := dd, missing := fun _ => ∅, data := [] }

/-- The totals loop of _report_test_coverage (plugin.py lines 323-326):
covered accumulates the number of 1-valued leaves, total the number of
leaves. -/
def reportTotals (data : RData) : Nat × Nat :=
  data.foldl
    (fun acc tf => tf.2.foldl
      (fun acc fl => (acc.1 + fl.2.ones.card, acc.2 + fl.2.size)) acc)
    (0, 0)

/-- The emitted report value: stats and the serialized tests structure. -/
structure Report where
  covered : Nat
  total : Nat
  tests : RData
deriving DecidableEq

/-- QuickUnitPlugin._report_test_coverage: assemble the data, compute the
totals, and emit the report only when a report file is configured. -/
def reportCoverage (report_file : Bool) (dd : DD) (mm : List (String × String))
    (itc : List (String × List (String × Finset Nat)))
    (tcd : List (String × List (String × Finset Nat))) : Option Report :=
  let st := assembleState dd mm itc tcd
  let ct := reportTotals st.data
  if report_file then some { covered := ct.1, total := ct.2, tests := st.data } else none

/-- QuickUnitPlugin.report (plugin.py lines 275-279): with verbosity 0 the
method returns before writing anything; otherwise it delegates to
_report_test_coverage. -/
def reportMain (verbosity : Nat) (report_file : Bool) (dd : DD) (mm : List (String × String))
    (itc : List (String × List (String × Finset Nat)))
    (tcd : List (String × List (String × Finset Nat))) : Option Report :=
  if verbosity = 0 then none else reportCoverage report_file dd mm itc tcd

/-! ### The op-list view of the report assembly

For the monotone-merge claim the data assembly is decomposed into its
atomic merge/update steps: one `ph1` op per (test, file) pair of
test_cov_data and one `ph2` op per (test, file) pair of the import-time
overlay.  `assembleOps` below is proved equal to `assembleState`. -/

/-- One merge/update step of _report_test_coverage. -/
inductive ROp
  | ph1 (t f : String) (cov : Finset Nat)
  | ph2 (t f : String) (icov : Finset Nat)
deriving DecidableEq

/-- The test a step belongs to. -/
def ROp.test : ROp → String
  | .ph1 t _ _ => t
  | .ph2 t _ _ => t

/-- The merge/update steps performed for one test of test_cov_data. -/
def opsOfTest (mm : List (String × String)) (itc : List (String × List (String × Finset Nat)))
    (tc : String × List (String × Finset Nat)) : List ROp :=
  tc.2.map (fun fc => ROp.ph1 tc.1 fc.1 fc.2) ++
    (match alLookup mm tc.1 with
     | none => []
     | some m =>
       if m = ("") then []
       else
         match alLookup itc m with
         | none => []
         | some icovs => icovs.map (fun fc => ROp.ph2 tc.1 fc.1 fc.2))

/-- All merge/update steps of the report assembly, in execution order. -/
def reportOps (mm : List (String × String)) (itc : List (String × List (String × Finset Nat)))
    (tcd : List (String × List (String × Finset Nat))) : List ROp :=
  tcd.flatMap (opsOfTest mm itc)

/-- Execution of one merge/update step. -/
def applyOp (st : RState) : ROp → RState
  | .ph1 t f cov => phase1Step st t (f, cov)
  | .ph2 t f icov => phase2Step st t (f, icov)

/-- Initial state of the report assembly. -/
def initR (dd : DD) : RState :=
  { diff_data := dd, missing := fun _ => ∅, data := [] }

/-- The import-time coverage list that the assembly overlays onto a given
test: the entry of importtime_cov_data for the test's module, when the
module name is known, nonempty and present. -/
def effIcov (mm : List (String × String)) (itc : List (String × List (String × Finset Nat)))
    (t : String) : List (String × Finset Nat) :=
  match alLookup mm t with
  | none => []
  | some m => if m = ("") then [] else (alLookup itc m).getD []

/-! ### Spec-side definitions (following the spec's words, for comparison
with the code embedding) -/

/-- Following the spec's words for the change-set entry claim: the
new_lineno values of the added lines of a file-diff record. -/
def addedLinenos (file : FileDiff) : Finset Nat :=
  (file.chunks.flatten.filterMap
    (fun l => if l.action = LAction.add then l.new_lineno else none)).toFinset

/-- What the code actually collects, stated declaratively: the new_lineno
values of added and context lines whose text is nonempty (and whose
number is nonzero, as the truthiness filter requires). -/
def addedContextLinenos (file : FileDiff) : Finset Nat :=
  (file.chunks.flatten.filterMap
    (fun l =>
      if l.action ≠ LAction.del ∧ l.line ≠ ("") then
        match l.new_lineno with
        | some n => if n = 0 then none else some n
        | none => none
      else none)).toFinset

/-- Following the spec's words for the merge-policy claim: the report
entry of a test as a function of only that test's per-test classification
(cov), its module's import-time coverage (icov) and the change set:
per-test covered lines are 1, uncovered changed lines 0, and the
import-time overlay monotonely adds 1s (for overlay-only files no 0 is
ever produced). -/
def specMergedEntry (dd : DD) (cov icov : List (String × Finset Nat))
    (f : String) (k : Nat) : Option Nat :=
  match alLookup cov f, alLookup icov f with
  | some c, some i =>
    if k ∈ c ∪ i then some 1
    else if k ∈ ddFind dd f \ (c ∪ i) then some 0
    else none
  | some c, none =>
    if k ∈ c then some 1
    else if k ∈ ddFind dd f \ c then some 0
    else none
  | none, some i => if k ∈ i then some 1 else none
  | none, none => none

/-- Following the spec's words for the aggregation claim: the number of
(test, file, line) leaves present across the tests structure. -/
def leafTotalSpec (data : RData) : Nat :=
  (data.map (fun tf => (tf.2.map (fun fl => fl.2.keyset.card)).sum)).sum

/-- Following the spec's words for the aggregation claim: the number of
leaves whose value is 1. -/
def leafCoveredSpec (data : RData) : Nat :=
  (data.map (fun tf =>
    (tf.2.map (fun fl =>
      (fl.2.keyset.filter (fun k => fl.2.lookup k = some 1)).card)).sum)).sum

/-! ### Concrete run fragments used by the scenario claims -/

/-- The selection-scenario diff record: two lines added to pkg/foo.py with
new_lineno 10 and 11. -/
def fileFoo : FileDiff :=
  { is_header := false, old_filename := ("a/pkg/foo.py"), new_filename := ("b/pkg/foo.py"),
    chunks := [[{ action := .add, new_lineno := some 10, line := ("x") },
                { action := .add, new_lineno := some 11, line := ("y") }]] }

/-- A diff record touching the test file tests/pkg/test_bar.py itself
(one line added with new_lineno 20). -/
def fileBar : FileDiff :=
  { is_header := false, old_filename := ("a/tests/pkg/test_bar.py"),
    new_filename := ("b/tests/pkg/test_bar.py"),
    chunks := [[{ action := .add, new_lineno := some 20, line := ("z") }]] }

/-- Plugin state after begin on the selection-scenario diff. -/
def stC1 : BeginSt :=
  beginState [("tests/")] ("/work") [fileFoo]

/-- wantMethod's view of that state. -/
def wStC1 : WState :=
  { pfxs := [("tests/")], diff_data := stC1.diff_data, pending_files := stC1.pending_files,
    tests_run := [], root := stC1.root }

/-- Plugin state after begin on the scenario diff extended with a change
to tests/pkg/test_bar.py itself. -/
def stC1b : BeginSt :=
  beginState [("tests/")] ("/work") [fileFoo, fileBar]

/-- wantMethod's view of that extended state. -/
def wStC1b : WState :=
  { pfxs := [("tests/")], diff_data := stC1b.diff_data, pending_files := stC1b.pending_files,
    tests_run := [], root := stC1b.root }

/-- Change set for the order-dependence scenario: f.py changed at lines 1
and 2. -/
def ddC2 : DD :=
  [(("f.py"), ({1, 2} : Finset Nat))]

/-- test_cov_data iterated with test A (which covered line 1 of f.py)
before test B (which covered nothing). -/
def tcdAB : List (String × List (String × Finset Nat)) :=
  [(("A"), [(("f.py"), ({1} : Finset Nat))]), (("B"), [])]

/-- The same test_cov_data iterated in the opposite order. -/
def tcdBA : List (String × List (String × Finset Nat)) :=
  [(("B"), []), (("A"), [(("f.py"), ({1} : Finset Nat))])]

/-- test B belongs to module m; test A has no module mapping. -/
def mmC2 : List (String × String) :=
  [(("B"), ("m"))]

/-- Import-time coverage of module m: line 1 of f.py. -/
def itcC2 : List (String × List (String × Finset Nat)) :=
  [(("m"), [(("f.py"), ({1} : Finset Nat))])]

/-- A newly created file (old filename the null-device sentinel) adding
lines 1 and 2 of pkg/new.py. -/
def fileNew : FileDiff :=
  { is_header := false, old_filename := ("/dev/null"), new_filename := ("b/pkg/new.py"),
    chunks := [[{ action := .add, new_lineno := some 1, line := ("a") },
                { action := .add, new_lineno := some 2, line := ("b") }]] }

/-- Plugin state after begin on the new-file diff. -/
def stC4 : BeginSt :=
  beginState [("tests/")] ("/work") [fileNew]

/-- Per-test coverage recorded for a test that executed line 1 of the new
file during its bracket. -/
def cdC4 : List (String × Finset Nat) :=
  record_coverage_data stC4.diff_data [(("pkg/new"), ({1} : Finset Nat))] []

/-- Report-assembly state for that single test. -/
def rstC4 : RState :=
  assembleState stC4.diff_data [] [] [(("T"), cdC4)]

/-- A diff record whose hunk has a context line (new_lineno 5) followed by
an added line (new_lineno 6). -/
def fileC5 : FileDiff :=
  { is_header := false, old_filename := ("a/pkg/c.py"), new_filename := ("b/pkg/c.py"),
    chunks := [[{ action := .unchanged, new_lineno := some 5, line := ("ctx") },
                { action := .add, new_lineno := some 6, line := ("new") }]] }

/-- The report emitted for the single-test new-file run above. -/
def rC6val : Report :=
  { covered := 1, total := 2,
    tests := [(("T"), [(("pkg/new.py"),
      { zeros := ({2} : Finset Nat), ones := ({1} : Finset Nat) })])] }

/-! ### Basic lemmas about the association-list dict operations -/

theorem alLookup_append {β : Type} (d e : List (String × β)) (k : String) :
    alLookup (d ++ e) k = match alLookup d k with
      | some v => some v
      | none => alLookup e k := by
  induction d with
  | nil => simp [alLookup]
  | cons p rest ih =>
    by_cases h : p.1 = k
    · simp [alLookup, h]
    · simp [alLookup, h, ih]

theorem alLookup_map_set_self {β : Type} (d : List (String × β)) (k : String) (v : β)
    (h : (alLookup d k).isSome) :
    alLookup (d.map (fun p => if p.1 = k then (k, v) else p)) k = some v := by
  induction d with
  | nil => simp [alLookup] at h
  | cons p rest ih =>
    by_cases hp : p.1 = k
    · simp [alLookup, hp]
    · simp [alLookup, hp] at h
      simp [alLookup, hp, ih h]

theorem alLookup_map_set_ne {β : Type} (d : List (String × β)) (k k' : String) (v : β)
    (h : k' ≠ k) :
    alLookup (d.map (fun p => if p.1 = k then (k, v) else p)) k' = alLookup d k' := by
  induction d with
  | nil => simp [alLookup]
  | cons p rest ih =>
    by_cases hp : p.1 = k
    · have : k ≠ k' := fun hkk => h hkk.symm
      simp [alLookup, hp, this, ih]
    · by_cases hp' : p.1 = k'
      · simp [alLookup, hp, hp', h, ih]
      · simp [alLookup, hp, hp', ih]

theorem alLookup_alSet_self {β : Type} (d : List (String × β)) (k : String) (v : β) :
    alLookup (alSet d k v) k = some v := by
  unfold alSet
  by_cases h : (alLookup d k).isSome
  · simp [h, alLookup_map_set_self d k v h]
  · simp [h, alLookup_append]
    cases hd : alLookup d k with
    | some w => simp [hd] at h
    | none => simp [alLookup]

theorem alLookup_alSet_ne {β : Type} (d : List (String × β)) (k k' : String) (v : β)
    (h : k' ≠ k) :
    alLookup (alSet d k v) k' = alLookup d k' := by
  unfold alSet
  by_cases hs : (alLookup d k).isSome
  · simp [hs, alLookup_map_set_ne d k k' v h]
  · simp [hs, alLookup_append]
    cases hd : alLookup d k' with
    | some w => simp
    | none => simp [alLookup, Ne.symm h]

theorem alLookup_eq_none_iff {β : Type} (d : List (String × β)) (k : String) :
    alLookup d k = none ↔ ∀ p ∈ d, p.1 ≠ k := by
  induction d with
  | nil => simp [alLookup]
  | cons p rest ih =>
    by_cases hp : p.1 = k
    · simp [alLookup, hp]
    · simp [alLookup, hp, ih]

theorem ddFind_ddGetE_snd (d : DD) (f k : String) :
    ddFind (ddGetE d f).2 k = ddFind d k := by
  unfold ddGetE ddFind
  by_cases hs : (alLookup d f).isSome
  · simp [hs]
  · simp [hs, alLookup_append]
    by_cases hk : f = k
    · subst hk
      cases hd : alLookup d f with
      | some w => simp [hd] at hs
      | none => simp [alLookup]
    · cases hd : alLookup d k with
      | some w => simp
      | none =>
        simp [alLookup]
        by_cases hfk : f = k
        · exact absurd hfk hk
        · simp [hfk]

theorem ddFind_ddSetUnion_self (d : DD) (k : String) (s : Finset Nat) :
    ddFind (ddSetUnion d k s) k = ddFind d k ∪ s := by
  unfold ddSetUnion ddFind
  rw [alLookup_alSet_self]
  rfl

theorem ddFind_ddSetUnion_ne (d : DD) (k k' : String) (s : Finset Nat) (h : k' ≠ k) :
    ddFind (ddSetUnion d k s) k' = ddFind d k' := by
  unfold ddSetUnion ddFind
  rw [alLookup_alSet_ne _ _ _ _ h]

theorem dataFile_dataSet (d : RData) (t' f' t f : String) (ld : LineDict) :
    dataFile (dataSet d t' f' ld) t f =
      if t = t' then (if f = f' then some ld else dataFile d t f) else dataFile d t f := by
  unfold dataFile dataSet
  by_cases ht : t = t'
  · subst ht
    rw [alLookup_alSet_self]
    by_cases hf : f = f'
    · subst hf
      simp [alLookup_alSet_self]
    · simp [hf, alLookup_alSet_ne _ _ _ _ hf]
      cases hd : alLookup d t with
      | some fs => simp
      | none => simp [alLookup]
  · rw [alLookup_alSet_ne _ _ _ _ ht]
    simp [ht]

theorem fupd_self (m : String → Finset Nat) (k : String) (v : Finset Nat) :
    fupd m k v k = v := by
  simp [fupd]

theorem fupd_ne (m : String → Finset Nat) (k k' : String) (v : Finset Nat) (h : k' ≠ k) :
    fupd m k v k' = m k' := by
  simp [fupd, h]

/-! ### Claim C1: the selection scenario -/

/-- C1 counterexample: in the scenario state (diff adds lines 10 and 11 of
pkg/foo.py, test prefix tests/), wantMethod returns false — not true as
the claim states — for a test method defined in tests/pkg/test_foo.py
(source lines 5-7), because the pending test path tests/pkg/foo is not a
string prefix of tests/pkg/test_foo.py. -/
theorem C1_selection_cex :
    (wantMethod wStC1 ("/work/tests/pkg/test_foo.py") 5 3).1 = false := by
  decide

/-- C1 (amended): in the scenario state, wantMethod selects a test method
defined in tests/pkg/foo_test.py (whose path the pending stem
tests/pkg/foo is a string prefix of) and rejects methods defined in
tests/pkg/test_foo.py and tests/pkg/test_bar.py; when
tests/pkg/test_bar.py itself appears in the diff with changed line 20
intersecting the method's source range 18-24, the method is selected. -/
theorem C1_selection_amended :
    (wantMethod wStC1 ("/work/tests/pkg/foo_test.py") 5 3).1 = true ∧
    (wantMethod wStC1 ("/work/tests/pkg/test_foo.py") 5 3).1 = false ∧
    (wantMethod wStC1 ("/work/tests/pkg/test_bar.py") 5 3).1 = false ∧
    (wantMethod wStC1b ("/work/tests/pkg/test_bar.py") 18 7).1 = true := by
  decide

/-! ### Claim C2: order independence of report entries -/

/-- C2 counterexample: test B's per-test data and module import-time
coverage are identical in the two runs, which differ only in the order in
which tests A and B are iterated during report assembly; yet B's report
entry for f.py line 2 is 0 in one order and absent in the other, because
the overlay reads the residual missing set left by test A. -/
theorem C2_merge_cex :
    dataLeaf (assembleState ddC2 mmC2 itcC2 tcdAB).data ("B") ("f.py") 2 = some 0 ∧
    dataLeaf (assembleState ddC2 mmC2 itcC2 tcdBA).data ("B") ("f.py") 2 = none := by
  decide

/-! ### Claim C4: new files and the missing sets -/

/-- C4: evaluation of the embedded code at the failing input.  The diff
creates pkg/new.py (old filename the null-device sentinel) adding lines 1
and 2; a test executed line 1 only.  Report assembly then puts line 2 of
the new file into the missing set and emits a 0-valued leaf for it,
although the claim (and the source comment) say lines of new files never
appear in missing sets. -/
theorem C4_newfile_missing_eval :
    fileNew.old_filename = ("/dev/null") ∧
    stC4.pending_files = [] ∧
    rstC4.missing ("pkg/new.py") = ({2} : Finset Nat) ∧
    dataLeaf rstC4.data ("T") ("pkg/new.py") 2 = some 0 := by
  refine ⟨by decide, by decide, ?_, by decide⟩
  decide

/-! ### Claim C5: what the change-set entry contains -/

/-- C5 counterexample: for a retained file-diff record whose hunk holds a
context line with new_lineno 5 and an added line with new_lineno 6, the
ChangeSet entry is not the added-lines set: the context line number 5 is
collected too. -/
theorem C5_changeset_cex :
    ddFind (beginState [("tests/")] ("/work") [fileC5]).diff_data ("pkg/c.py")
      ≠ addedLinenos fileC5 ∧
    (5 : Nat) ∈ ddFind (beginState [("tests/")] ("/work") [fileC5]).diff_data ("pkg/c.py") := by
  decide

/-! ### Claim C7: mutation of the ChangeSet after parsing -/

/-- C7 counterexample: calling wantMethod for a test file absent from the
ChangeSet mutates diff_data — the defaultdict read materializes an empty
entry for tests/pkg/test_bar.py — contradicting the claim that no later
operation adds any entry, including empty ones. -/
theorem C7_readonly_cex :
    (wantMethod wStC1 ("/work/tests/pkg/test_bar.py") 5 3).2.diff_data
      ≠ wStC1.diff_data := by
  decide

/-! ### Claim C10: report emission gated on verbosity -/

/-- C10: with verbosity 0 the report call returns immediately and emits
nothing, whatever the configured report destination and the recorded
data. -/
theorem C10_verbosity_gate (report_file : Bool) (dd : DD) (mm : List (String × String))
    (itc : List (String × List (String × Finset Nat)))
    (tcd : List (String × List (String × Finset Nat))) :
    reportMain 0 report_file dd mm itc tcd = none := by
  simp [reportMain]

/-! ### Claim C8: the empty diff -/

theorem prefixLoop_empty_pending (filename : String) :
    ∀ (l : List String) (st : WState), st.pending_files = [] →
      (prefixLoop st filename l).1 = false := by
  intro l
  induction l with
  | nil => intro st h; simp [prefixLoop]
  | cons pfx rest ih =>
    intro st h
    unfold prefixLoop
    by_cases hs : strStartsWith filename pfx
    · simp only [hs, if_true]
      rw [h]
      simp only [List.any_nil]
      exact ih _ rfl
    · simp only [hs, if_false]
      exact ih _ h

/-- C8: on an empty diff, begin produces an empty ChangeSet, empty
PendingTestPaths and no root; from that state wantMethod rejects every
test method (the modified-test rule sees an empty line set and the
prefix rule finds no pending path); and with no test having run, the
assembled report is exactly covered 0, total 0, empty tests. -/
theorem C8_empty_diff :
    (∀ pfxs cwd, beginState pfxs cwd parseEmptyDiff =
      { diff_data := [], pending_files := [], root := none }) ∧
    (∀ pfxs absfile startlineno numlines,
      (wantMethod
        { pfxs := pfxs, diff_data := [], pending_files := [], tests_run := [], root := none }
        absfile startlineno numlines).1 = false) ∧
    (∀ mm itc, reportCoverage true [] mm itc [] =
      some { covered := 0, total := 0, tests := [] }) := by
  refine ⟨fun pfxs cwd => rfl, ?_, fun mm itc => rfl⟩
  intro pfxs absfile startlineno numlines
  unfold wantMethod wantMethodBody
  simp only [ddGetE, alLookup, Option.getD_none, Option.isSome_none]
  have hne : ¬ ((∅ : Finset Nat) ≠ ∅ ∧
      (List.range numlines).any (fun i => decide ((startlineno + i) ∈ (∅ : Finset Nat)))) := by
    simp
  rw [if_neg hne]
  exact prefixLoop_empty_pending _ _ _ rfl

/-! ### Claim C7 (amended): the ChangeSet as a default-empty mapping is
never changed after begin -/

theorem prefixLoop_diff_data (filename : String) :
    ∀ (l : List String) (st : WState), (prefixLoop st filename l).2.diff_data = st.diff_data := by
  intro l
  induction l with
  | nil => intro st; rfl
  | cons pfx rest ih =>
    intro st
    unfold prefixLoop
    by_cases hs : strStartsWith filename pfx
    · simp only [hs, if_true]
      by_cases ha : ({ st with tests_run := setAdd st.tests_run filename } : WState).pending_files.any
          (fun pend => strStartsWith filename pend)
      · simp [ha]
      · simp only [ha, if_false]
        exact ih _
    · simp only [hs, if_false]
      exact ih _

theorem ddFind_phase1Step (st : RState) (t : String) (fc : String × Finset Nat) (k : String) :
    ddFind (phase1Step st t fc).diff_data k = ddFind st.diff_data k := by
  unfold phase1Step
  exact ddFind_ddGetE_snd _ _ _

theorem ddFind_phase2Step (st : RState) (t : String) (fc : String × Finset Nat) (k : String) :
    ddFind (phase2Step st t fc).diff_data k = ddFind st.diff_data k := by
  rfl

theorem ddFind_foldlR {α : Type} (g : RState → α → RState)
    (hg : ∀ s x k, ddFind (g s x).diff_data k = ddFind s.diff_data k) :
    ∀ (l : List α) (st : RState) (k : String),
      ddFind ((l.foldl g st).diff_data) k = ddFind st.diff_data k := by
  intro l
  induction l with
  | nil => intro st k; rfl
  | cons x xs ih => intro st k; rw [List.foldl_cons, ih, hg]

theorem ddFind_testStep (mm : List (String × String))
    (itc : List (String × List (String × Finset Nat))) (st : RState)
    (tc : String × List (String × Finset Nat)) (k : String) :
    ddFind (testStep mm itc st tc).diff_data k = ddFind st.diff_data k := by
  unfold testStep
  have h1 : ∀ (st' : RState) (k' : String),
      ddFind ((tc.2.foldl (fun s fc => phase1Step s tc.1 fc) st').diff_data) k'
        = ddFind st'.diff_data k' := by
    intro st' k'
    exact ddFind_foldlR _ (fun s fc k'' => ddFind_phase1Step s tc.1 fc k'') tc.2 st' k'
  cases halm : alLookup mm tc.1 with
  | none => simpa using h1 st k
  | some m =>
    by_cases hm : m = ("")
    · simp only [hm, if_true]
      exact h1 st k
    · simp only [hm, if_false]
      cases hitc : alLookup itc m with
      | none => exact h1 st k
      | some icovs =>
        rw [ddFind_foldlR _ (fun s fc k'' => ddFind_phase2Step s tc.1 fc k'') icovs _ k]
        exact h1 st k

/-- C7 (amended): after begin, every later operation leaves the ChangeSet
unchanged as a mapping with empty default — no file's changed-line set is
ever altered — although the defaultdict reads in wantMethod and in report
assembly may materialize empty entries for absent keys (as the
counterexample shows). -/
theorem C7_readonly_amended :
    (∀ (st : WState) (absfile : String) (startlineno numlines : Nat) (k : String),
      ddFind (wantMethod st absfile startlineno numlines).2.diff_data k
        = ddFind st.diff_data k) ∧
    (∀ (dd : DD) (mm : List (String × String))
      (itc : List (String × List (String × Finset Nat)))
      (tcd : List (String × List (String × Finset Nat))) (k : String),
      ddFind (assembleState dd mm itc tcd).diff_data k = ddFind dd k) := by
  constructor
  · intro st absfile startlineno numlines k
    unfold wantMethod wantMethodBody
    dsimp only
    split
    · exact ddFind_ddGetE_snd _ _ _
    · rw [prefixLoop_diff_data]
      exact ddFind_ddGetE_snd _ _ _
  · intro dd mm itc tcd k
    exact ddFind_foldlR _ (fun s tc k'' => ddFind_testStep mm itc s tc k'') tcd _ k

/-! ### Claim C6: aggregation consistency -/

theorem LineDict.filter_ones (ld : LineDict) :
    ld.keyset.filter (fun k => ld.lookup k = some 1) = ld.ones := by
  ext k
  by_cases h1 : k ∈ ld.ones
  · simp [LineDict.keyset, LineDict.lookup, h1]
  · by_cases h0 : k ∈ ld.zeros <;>
      simp [LineDict.keyset, LineDict.lookup, h1, h0]

theorem reportTotals_inner (files : List (String × LineDict)) :
    ∀ (a b : Nat),
      files.foldl (fun acc fl => (acc.1 + fl.2.ones.card, acc.2 + fl.2.size)) (a, b)
        = (a + (files.map (fun fl =>
            (fl.2.keyset.filter (fun k => fl.2.lookup k = some 1)).card)).sum,
           b + (files.map (fun fl => fl.2.keyset.card)).sum) := by
  induction files with
  | nil => intro a b; simp
  | cons fl rest ih =>
    intro a b
    rw [List.foldl_cons, ih]
    simp only [List.map_cons, List.sum_cons, LineDict.filter_ones, LineDict.size]
    simp [Nat.add_assoc]

theorem reportTotals_spec (data : RData) :
    reportTotals data = (leafCoveredSpec data, leafTotalSpec data) := by
  unfold reportTotals leafCoveredSpec leafTotalSpec
  suffices h : ∀ (a b : Nat),
      data.foldl (fun acc tf => tf.2.foldl
        (fun acc fl => (acc.1 + fl.2.ones.card, acc.2 + fl.2.size)) acc) (a, b)
      = (a + (data.map (fun tf => (tf.2.map (fun fl =>
          (fl.2.keyset.filter (fun k => fl.2.lookup k = some 1)).card)).sum)).sum,
         b + (data.map (fun tf => (tf.2.map (fun fl => fl.2.keyset.card)).sum)).sum) by
    rw [h 0 0]
    simp
  induction data with
  | nil => intro a b; simp
  | cons tf rest ih =>
    intro a b
    rw [List.foldl_cons]
    have hi := reportTotals_inner tf.2 a b
    rw [hi, ih]
    simp only [List.map_cons, List.sum_cons]
    simp [Nat.add_assoc]

/-- C6: in the emitted report, stats.total is the number of (test, file,
line) leaves across the serialized tests structure and stats.covered the
number of those leaves whose value is 1. -/
theorem C6_aggregation (dd : DD) (mm : List (String × String))
    (itc : List (String × List (String × Finset Nat)))
    (tcd : List (String × List (String × Finset Nat))) (r : Report)
    (h : reportCoverage true dd mm itc tcd = some r) :
    r.covered = leafCoveredSpec r.tests ∧ r.total = leafTotalSpec r.tests := by
  unfold reportCoverage at h
  simp only [if_true, Option.some.injEq] at h
  subst h
  simp [reportTotals_spec]

/-! ### Claim C9: files with no executed changed lines leave no trace -/

theorem dataFile_phase1_fold (t' t f : String) :
    ∀ (l : List (String × Finset Nat)) (st : RState),
      (t' ≠ t ∨ ∀ fc ∈ l, fc.1 ≠ f) →
      dataFile ((l.foldl (fun s fc => phase1Step s t' fc) st).data) t f
        = dataFile st.data t f := by
  intro l
  induction l with
  | nil => intro st _; rfl
  | cons fc rest ih =>
    intro st h
    rw [List.foldl_cons]
    have hstep : dataFile (phase1Step st t' fc).data t f = dataFile st.data t f := by
      unfold phase1Step
      dsimp only
      rw [dataFile_dataSet]
      rcases h with h | h
      · rw [if_neg (fun ht => h ht.symm)]
      · have hf : fc.1 ≠ f := h fc (by simp)
        by_cases ht : t = t'
        · rw [if_pos ht, if_neg (fun hff => hf hff.symm)]
        · rw [if_neg ht]
    rw [ih _ ?_, hstep]
    rcases h with h | h
    · exact Or.inl h
    · exact Or.inr (fun fc' hm => h fc' (List.mem_cons_of_mem _ hm))

theorem dataFile_phase2_fold (t' t f : String) :
    ∀ (l : List (String × Finset Nat)) (st : RState),
      (t' ≠ t ∨ ∀ fc ∈ l, fc.1 ≠ f) →
      dataFile ((l.foldl (fun s fc => phase2Step s t' fc) st).data) t f
        = dataFile st.data t f := by
  intro l
  induction l with
  | nil => intro st _; rfl
  | cons fc rest ih =>
    intro st h
    rw [List.foldl_cons]
    have hstep : dataFile (phase2Step st t' fc).data t f = dataFile st.data t f := by
      unfold phase2Step
      dsimp only
      rw [dataFile_dataSet]
      rcases h with h | h
      · rw [if_neg (fun ht => h ht.symm)]
      · have hf : fc.1 ≠ f := h fc (by simp)
        by_cases ht : t = t'
        · rw [if_pos ht, if_neg (fun hff => hf hff.symm)]
        · rw [if_neg ht]
    rw [ih _ ?_, hstep]
    rcases h with h | h
    · exact Or.inl h
    · exact Or.inr (fun fc' hm => h fc' (List.mem_cons_of_mem _ hm))

theorem dataFile_testStep_none (mm : List (String × String))
    (itc : List (String × List (String × Finset Nat)))
    (e : String × List (String × Finset Nat)) (t f : String) (st : RState)
    (h1 : e.1 ≠ t ∨ alLookup e.2 f = none)
    (h2 : ∀ m icovs, alLookup mm t = some m → alLookup itc m = some icovs →
      alLookup icovs f = none) :
    dataFile (testStep mm itc st e).data t f = dataFile st.data t f := by
  have hph1 : e.1 ≠ t ∨ ∀ fc ∈ e.2, fc.1 ≠ f := by
    rcases h1 with h | h
    · exact Or.inl h
    · exact Or.inr (fun fc hm => (alLookup_eq_none_iff e.2 f).1 h fc hm)
  unfold testStep
  cases halm : alLookup mm e.1 with
  | none => exact dataFile_phase1_fold _ _ _ _ _ hph1
  | some m =>
    by_cases hm : m = ("")
    · simp only [hm, if_true]
      exact dataFile_phase1_fold _ _ _ _ _ hph1
    · simp only [hm, if_false]
      cases hitc : alLookup itc m with
      | none => exact dataFile_phase1_fold _ _ _ _ _ hph1
      | some icovs =>
        have hph2 : e.1 ≠ t ∨ ∀ fc ∈ icovs, fc.1 ≠ f := by
          by_cases het : e.1 = t
          · subst het
            have := h2 m icovs halm hitc
            exact Or.inr (fun fc hm' => (alLookup_eq_none_iff icovs f).1 this fc hm')
          · exact Or.inl het
        rw [dataFile_phase2_fold _ _ _ _ _ hph2]
        exact dataFile_phase1_fold _ _ _ _ _ hph1

/-- C9: when none of a changed file's lines were executed during a test's
capture bracket, record_coverage_data creates no entry for that file in
the test's per-test data; and a file absent from a test's per-test data
and from its module's import-time coverage gets no entry at all (hence no
0-valued leaves and no contribution to the totals) in the assembled
report data for that test. -/
theorem C9_unexecuted_file_absent :
    (∀ (dd : DD) (cus cd0 : List (String × Finset Nat)) (f : String),
      alLookup cd0 f = none →
      (∀ cu ∈ cus, cu.1 ++ (".py") = f → cu.2 ∩ ddFind dd f = ∅) →
      alLookup (record_coverage_data dd cus cd0) f = none) ∧
    (∀ (dd : DD) (mm : List (String × String))
      (itc : List (String × List (String × Finset Nat)))
      (tcd : List (String × List (String × Finset Nat))) (t f : String),
      (∀ e ∈ tcd, e.1 = t → alLookup e.2 f = none) →
      (∀ m icovs, alLookup mm t = some m → alLookup itc m = some icovs →
        alLookup icovs f = none) →
      dataFile (assembleState dd mm itc tcd).data t f = none) := by
  constructor
  · intro dd cus
    unfold record_coverage_data
    induction cus with
    | nil => intro cd0 f h0 _; exact h0
    | cons cu rest ih =>
      intro cd0 f h0 hcu
      rw [List.foldl_cons]
      apply ih
      · dsimp only
        by_cases hdd : (alLookup dd (cu.1 ++ (".py"))).isSome
        · simp only [hdd, if_true]
          by_cases hcov : cu.2 ∩ ddFind dd (cu.1 ++ (".py")) = ∅
          · simp [hcov, h0]
          · simp only [hcov, if_false]
            by_cases hf : cu.1 ++ (".py") = f
            · exact absurd (hcu cu (by simp) hf) (by rw [hf] at hcov; exact hcov)
            · rw [alLookup_alSet_ne _ _ _ _ (fun hq => hf hq.symm)]
              exact h0
        · simp only [hdd, if_false]
          exact h0
      · intro cu' hm hf
        exact hcu cu' (List.mem_cons_of_mem _ hm) hf
  · intro dd mm itc tcd t f
    have main : ∀ (l : List (String × List (String × Finset Nat))) (st : RState),
        (∀ e ∈ l, e.1 = t → alLookup e.2 f = none) →
        (∀ m icovs, alLookup mm t = some m → alLookup itc m = some icovs →
          alLookup icovs f = none) →
        dataFile ((l.foldl (testStep mm itc) st).data) t f = dataFile st.data t f := by
      intro l
      induction l with
      | nil => intro st _ _; rfl
      | cons e rest ih =>
        intro st h1 h2
        rw [List.foldl_cons, ih _ (fun e' hm het => h1 e' (List.mem_cons_of_mem _ hm) het) h2]
        apply dataFile_testStep_none
        · by_cases het : e.1 = t
          · exact Or.inr (h1 e (by simp) het)
          · exact Or.inl het
        · exact h2
    intro h1 h2
    rw [assembleState, main tcd _ h1 h2]
    rfl

/-- Witness for C6: the aggregation theorem applied to the concrete
single-test run. -/
theorem C6_aggregation_witness :
    rC6val.covered = leafCoveredSpec rC6val.tests ∧
    rC6val.total = leafTotalSpec rC6val.tests :=
  C6_aggregation stC4.diff_data [] [] [(("T"), cdC4)] rC6val (by decide)

/-- Witness for C9: the theorem applied to a concrete run — a code unit
whose executed lines miss the changed lines of g.py leaves no g.py entry,
and a test with no per-test data and no module gets no g.py entry in the
assembled data. -/
theorem C9_unexecuted_file_absent_witness :
    alLookup (record_coverage_data [(("g.py"), ({3} : Finset Nat))]
      [(("g"), ({4} : Finset Nat))] []) ("g.py") = none ∧
    dataFile (assembleState [(("g.py"), ({3} : Finset Nat))] [] []
      [(("T"), [])]).data ("T") ("g.py") = none := by
  constructor
  · exact C9_unexecuted_file_absent.1 [(("g.py"), ({3} : Finset Nat))]
      [(("g"), ({4} : Finset Nat))] [] ("g.py") (by decide) (by decide)
  · exact C9_unexecuted_file_absent.2 [(("g.py"), ({3} : Finset Nat))] [] []
      [(("T"), [])] ("T") ("g.py") (by decide)
      (by intro m icovs hm _; simp [alLookup] at hm)

/-! ### Claim C5 (amended): what the ChangeSet entry contains -/

theorem ddFind_chunkfold (key : String) :
    ∀ (chunks : List (List DiffLine)) (d0 : DD),
      ddFind (chunks.foldl (fun d c => ddSetUnion d key (chunkLinenos c).toFinset) d0) key
        = ddFind d0 key ∪ (chunks.flatten.filterMap (fun l =>
            if l.line ≠ ("") then
              match l.new_lineno with
              | some n => if n = 0 then none else some n
              | none => none
            else none)).toFinset := by
  intro chunks
  induction chunks with
  | nil => intro d0; simp
  | cons c cs ih =>
    intro d0
    rw [List.foldl_cons, ih, ddFind_ddSetUnion_self]
    rw [List.flatten_cons, List.filterMap_append, List.toFinset_append]
    rw [Finset.union_assoc]
    rfl

theorem chunk_filter_eq_addedContext (file : FileDiff)
    (hwf : ∀ l ∈ file.chunks.flatten, l.action = LAction.del → l.new_lineno = none) :
    (file.chunks.flatten.filterMap (fun l =>
        if l.line ≠ ("") then
          match l.new_lineno with
          | some n => if n = 0 then none else some n
          | none => none
        else none)).toFinset = addedContextLinenos file := by
  unfold addedContextLinenos
  congr 1
  apply List.filterMap_congr
  intro l hl
  by_cases hdel : l.action = LAction.del
  · have hn := hwf l hl hdel
    simp [hdel, hn]
  · simp [hdel]

/-- C5 (amended): for a retained (non-header, non-deleted, recognized
Python) file-diff record whose removed lines carry no new_lineno (the
parser's invariant), the ChangeSet entry built for that file contains
exactly the nonzero new_lineno values of the record's added and context
lines with nonempty text across all its hunks. -/
theorem C5_changeset_amended (pfxs : List String) (cwd : String) (file : FileDiff)
    (hh : file.is_header = false)
    (hnd : file.new_filename ≠ ("/dev/null"))
    (hmk : strStartsWith
      (if file.old_filename = ("/dev/null") then file.new_filename else file.old_filename)
      (if file.old_filename = ("/dev/null") then ("b/") else ("a/")) = true)
    (hpy : is_py_script (strDrop
      (if file.old_filename = ("/dev/null") then file.new_filename
       else file.old_filename) 2) = true)
    (hwf : ∀ l ∈ file.chunks.flatten, l.action = LAction.del → l.new_lineno = none) :
    ddFind (beginState pfxs cwd [file]).diff_data (strDrop file.new_filename 2)
      = addedContextLinenos file := by
  have hrun : beginState pfxs cwd [file]
      = beginStep pfxs cwd { diff_data := [], pending_files := [], root := none } file := rfl
  rw [hrun]
  unfold beginStep
  rw [← chunk_filter_eq_addedContext file hwf]
  by_cases hnew : file.old_filename = ("/dev/null")
  · simp only [hh, hnd, hnew, if_true, if_false, Bool.false_eq_true]
    simp only [hnew, if_true] at hmk hpy
    simp only [hmk, hpy, not_true, if_false, if_true]
    rw [ddFind_chunkfold]
    simp [ddFind, alLookup]
  · simp only [hh, hnd, hnew, if_true, if_false, Bool.false_eq_true]
    simp only [hnew, if_false] at hmk hpy
    simp only [hmk, hpy, not_true, if_false, if_true]
    rw [ddFind_chunkfold]
    simp [ddFind, alLookup]

/-- Witness for C5 (amended): the characterization applied to the
concrete record with a context line (new_lineno 5) and an added line
(new_lineno 6) — the entry is exactly the two line numbers. -/
theorem C5_changeset_amended_witness :
    ddFind (beginState [("tests/")] ("/work") [fileC5]).diff_data
      (strDrop fileC5.new_filename 2) = addedContextLinenos fileC5 :=
  C5_changeset_amended [("tests/")] ("/work") fileC5
    (by decide) (by decide) (by decide) (by decide) (by decide)

/-! ### Claim C2 (amended): characterization of a first-processed test's
report entry -/

theorem alLookup_eq_none_of_not_mem {β : Type} (l : List (String × β)) (k : String)
    (h : k ∉ l.map Prod.fst) : alLookup l k = none := by
  rw [alLookup_eq_none_iff]
  intro p hp hpk
  exact h (hpk ▸ List.mem_map_of_mem Prod.fst hp)

theorem phase1Step_dataFile (st : RState) (t : String) (fc : String × Finset Nat) (f : String) :
    dataFile (phase1Step st t fc).data t f
      = if f = fc.1 then
          some ((LineDict.setOnes fc.2).updZeros (ddFind st.diff_data fc.1 \ fc.2))
        else dataFile st.data t f := by
  unfold phase1Step
  dsimp only
  rw [dataFile_dataSet]
  simp only [if_pos rfl]
  rfl

theorem phase1Step_missing (st : RState) (t : String) (fc : String × Finset Nat) (f : String) :
    (phase1Step st t fc).missing f
      = if f = fc.1 then ddFind st.diff_data fc.1 \ fc.2 else st.missing f := by
  unfold phase1Step fupd
  dsimp only
  rfl

theorem phase2Step_dataFile (st : RState) (t : String) (fc : String × Finset Nat) (f : String) :
    dataFile (phase2Step st t fc).data t f
      = if f = fc.1 then
          some (((dataGetD st.data t fc.1).updOnes fc.2).updZeros (st.missing fc.1 \ fc.2))
        else dataFile st.data t f := by
  unfold phase2Step
  dsimp only
  rw [dataFile_dataSet]
  simp

theorem phase2Step_missing (st : RState) (t : String) (fc : String × Finset Nat) (f : String) :
    (phase2Step st t fc).missing f
      = if f = fc.1 then st.missing fc.1 \ fc.2 else st.missing f := by
  unfold phase2Step fupd
  dsimp only

theorem phase1_fold_char (t : String) :
    ∀ (cov : List (String × Finset Nat)) (st : RState),
      (cov.map Prod.fst).Nodup →
      ∀ f,
        (dataFile ((cov.foldl (fun s fc => phase1Step s t fc) st).data) t f
          = match alLookup cov f with
            | some c => some ((LineDict.setOnes c).updZeros (ddFind st.diff_data f \ c))
            | none => dataFile st.data t f) ∧
        ((cov.foldl (fun s fc => phase1Step s t fc) st).missing f
          = match alLookup cov f with
            | some c => ddFind st.diff_data f \ c
            | none => st.missing f) := by
  intro cov
  induction cov with
  | nil => intro st _ f; exact ⟨rfl, rfl⟩
  | cons fc rest ih =>
    intro st hnd f
    rw [List.map_cons] at hnd
    have hnotin : fc.1 ∉ rest.map Prod.fst := (List.nodup_cons.1 hnd).1
    have hnd' : (rest.map Prod.fst).Nodup := (List.nodup_cons.1 hnd).2
    rw [List.foldl_cons]
    obtain ⟨ihd, ihm⟩ := ih (phase1Step st t fc) hnd' f
    by_cases hf : f = fc.1
    · subst hf
      have hrest : alLookup rest fc.1 = none := alLookup_eq_none_of_not_mem rest fc.1 hnotin
      rw [ihd, ihm, hrest]
      simp only [alLookup, if_pos rfl]
      constructor
      · rw [phase1Step_dataFile, if_pos rfl]
        simp
      · rw [phase1Step_missing, if_pos rfl]
        simp
    · have hcons : alLookup (fc :: rest) f = alLookup rest f := by
        simp only [alLookup, if_neg (Ne.symm hf)]
      rw [ihd, ihm, hcons]
      have hdd : ddFind (phase1Step st t fc).diff_data f = ddFind st.diff_data f :=
        ddFind_phase1Step st t fc f
      cases hr : alLookup rest f with
      | some c => rw [hdd]; exact ⟨rfl, rfl⟩
      | none =>
        constructor
        · rw [phase1Step_dataFile, if_neg hf]
        · rw [phase1Step_missing, if_neg hf]

theorem phase2_fold_char (t : String) :
    ∀ (ic : List (String × Finset Nat)) (st : RState),
      (ic.map Prod.fst).Nodup →
      ∀ f,
        (dataFile ((ic.foldl (fun s fc => phase2Step s t fc) st).data) t f
          = match alLookup ic f with
            | some i => some (((dataGetD st.data t f).updOnes i).updZeros (st.missing f \ i))
            | none => dataFile st.data t f) ∧
        ((ic.foldl (fun s fc => phase2Step s t fc) st).missing f
          = match alLookup ic f with
            | some i => st.missing f \ i
            | none => st.missing f) := by
  intro ic
  induction ic with
  | nil => intro st _ f; exact ⟨rfl, rfl⟩
  | cons fc rest ih =>
    intro st hnd f
    rw [List.map_cons] at hnd
    have hnotin : fc.1 ∉ rest.map Prod.fst := (List.nodup_cons.1 hnd).1
    have hnd' : (rest.map Prod.fst).Nodup := (List.nodup_cons.1 hnd).2
    rw [List.foldl_cons]
    obtain ⟨ihd, ihm⟩ := ih (phase2Step st t fc) hnd' f
    by_cases hf : f = fc.1
    · subst hf
      have hrest : alLookup rest fc.1 = none := alLookup_eq_none_of_not_mem rest fc.1 hnotin
      rw [ihd, ihm, hrest]
      simp only [alLookup, if_pos rfl]
      constructor
      · rw [phase2Step_dataFile, if_pos rfl]
        simp
      · rw [phase2Step_missing, if_pos rfl]
        simp
    · have hcons : alLookup (fc :: rest) f = alLookup rest f := by
        simp only [alLookup, if_neg (Ne.symm hf)]
      rw [ihd, ihm, hcons]
      cases hr : alLookup rest f with
      | some i =>
        constructor
        · unfold dataGetD
          rw [phase2Step_dataFile, if_neg hf, phase2Step_missing, if_neg hf]
        · rw [phase2Step_missing, if_neg hf]
      | none =>
        constructor
        · rw [phase2Step_dataFile, if_neg hf]
        · rw [phase2Step_missing, if_neg hf]

theorem testStep_eq_folds (mm : List (String × String))
    (itc : List (String × List (String × Finset Nat))) (st : RState)
    (tc : String × List (String × Finset Nat)) :
    testStep mm itc st tc
      = (effIcov mm itc tc.1).foldl (fun s fc => phase2Step s tc.1 fc)
          (tc.2.foldl (fun s fc => phase1Step s tc.1 fc) st) := by
  unfold testStep effIcov
  cases alLookup mm tc.1 with
  | none => rfl
  | some m =>
    by_cases hm : m = ("")
    · simp only [hm, if_true]
      rfl
    · simp only [hm, if_false]
      cases alLookup itc m with
      | none => rfl
      | some icovs => rfl

/-- C2 (amended): when a test is processed with no earlier tests (so the
shared missing accumulator holds no residue), its report entry is exactly
the monotone overlay the spec describes: a function of only the test's
own per-test classification, the change set and its module's import-time
coverage.  (The counterexample shows that for later-processed tests the
overlay's 0-leaves for files outside the test's own classification depend
on earlier tests and their order.) -/
theorem C2_merge_amended (dd : DD) (mm : List (String × String))
    (itc : List (String × List (String × Finset Nat))) (t : String)
    (cov : List (String × Finset Nat))
    (h1 : (cov.map Prod.fst).Nodup)
    (h2 : ((effIcov mm itc t).map Prod.fst).Nodup)
    (f : String) (k : Nat) :
    dataLeaf (assembleState dd mm itc [(t, cov)]).data t f k
      = specMergedEntry dd cov (effIcov mm itc t) f k := by
  have hassem : assembleState dd mm itc [(t, cov)]
      = testStep mm itc { diff_data := dd, missing := fun _ => ∅, data := [] } (t, cov) := rfl
  rw [hassem, testStep_eq_folds]
  dsimp only
  obtain ⟨hd1, hm1⟩ := phase1_fold_char t cov
    { diff_data := dd, missing := fun _ => ∅, data := [] } h1 f
  obtain ⟨hd2, hm2⟩ := phase2_fold_char t (effIcov mm itc t)
    (cov.foldl (fun s fc => phase1Step s t fc)
      { diff_data := dd, missing := fun _ => ∅, data := [] }) h2 f
  unfold dataLeaf
  rw [hd2]
  have hst0d : dataFile ({ diff_data := dd, missing := fun _ => ∅, data := [] } : RState).data t f
      = none := rfl
  have hst0m : ({ diff_data := dd, missing := fun _ => ∅, data := [] } : RState).missing f
      = ∅ := rfl
  have hst0dd : ddFind ({ diff_data := dd, missing := fun _ => ∅, data := [] } : RState).diff_data f
      = ddFind dd f := rfl
  rw [hst0d, hst0dd] at hd1
  rw [hst0m, hst0dd] at hm1
  cases hic : alLookup (effIcov mm itc t) f with
  | some i =>
    unfold dataGetD
    rw [hd1, hm1]
    cases hcov : alLookup cov f with
    | some c =>
      simp only [specMergedEntry, hic, hcov, Option.getD_some]
      simp only [LineDict.lookup, LineDict.updOnes, LineDict.updZeros, LineDict.setOnes]
      by_cases hc : k ∈ c <;> by_cases hi : k ∈ i <;>
        by_cases hd : k ∈ ddFind dd f <;>
        simp [Finset.mem_union, Finset.mem_sdiff, hc, hi, hd]
    | none =>
      simp only [specMergedEntry, hic, hcov, Option.getD_none]
      simp only [LineDict.lookup, LineDict.updOnes, LineDict.updZeros, LineDict.setOnes]
      by_cases hi : k ∈ i <;> simp [Finset.mem_union, Finset.mem_sdiff, hi]
  | none =>
    rw [hd1]
    cases hcov : alLookup cov f with
    | some c =>
      simp only [specMergedEntry, hic, hcov, Option.getD_some]
      simp only [LineDict.lookup, LineDict.updOnes, LineDict.updZeros, LineDict.setOnes]
      by_cases hc : k ∈ c <;> by_cases hd : k ∈ ddFind dd f <;>
        simp [Finset.mem_union, Finset.mem_sdiff, hc, hd]
    | none =>
      simp only [specMergedEntry, hic, hcov, Option.getD_none]
      simp [LineDict.lookup]

/-- Witness for C2 (amended): the characterization applied to a concrete
single-test run (test B first, with its module's import-time coverage). -/
theorem C2_merge_amended_witness :
    dataLeaf (assembleState ddC2 mmC2 itcC2 [(("B"), [])]).data ("B") ("f.py") 2
      = specMergedEntry ddC2 [] (effIcov mmC2 itcC2 ("B")) ("f.py") 2 :=
  C2_merge_amended ddC2 mmC2 itcC2 ("B") [] (by decide) (by decide) ("f.py") 2

/-! ### Claim C3: the op-list view and monotonicity of the merge steps -/

theorem opsOfTest_eq (mm : List (String × String))
    (itc : List (String × List (String × Finset Nat)))
    (tc : String × List (String × Finset Nat)) :
    opsOfTest mm itc tc
      = tc.2.map (fun fc => ROp.ph1 tc.1 fc.1 fc.2)
        ++ (effIcov mm itc tc.1).map (fun fc => ROp.ph2 tc.1 fc.1 fc.2) := by
  unfold opsOfTest effIcov
  cases alLookup mm tc.1 with
  | none => simp
  | some m =>
    by_cases hm : m = ("")
    · simp [hm]
    · simp only [hm, if_false]
      cases alLookup itc m with
      | none => simp
      | some icovs => rfl

theorem foldl_applyOp_ph1 (t : String) (l : List (String × Finset Nat)) (st : RState) :
    (l.map (fun fc => ROp.ph1 t fc.1 fc.2)).foldl applyOp st
      = l.foldl (fun s fc => phase1Step s t fc) st := by
  rw [List.foldl_map]
  rfl

theorem foldl_applyOp_ph2 (t : String) (l : List (String × Finset Nat)) (st : RState) :
    (l.map (fun fc => ROp.ph2 t fc.1 fc.2)).foldl applyOp st
      = l.foldl (fun s fc => phase2Step s t fc) st := by
  rw [List.foldl_map]
  rfl

theorem testStep_eq_opsfold (mm : List (String × String))
    (itc : List (String × List (String × Finset Nat))) (st : RState)
    (tc : String × List (String × Finset Nat)) :
    (opsOfTest mm itc tc).foldl applyOp st = testStep mm itc st tc := by
  rw [opsOfTest_eq, List.foldl_append, foldl_applyOp_ph1, foldl_applyOp_ph2,
    testStep_eq_folds]

/-- The report assembly equals the sequential execution of its merge/update
steps: assembleState is the fold of reportOps. -/
theorem assembleState_eq_reportOps (dd : DD) (mm : List (String × String))
    (itc : List (String × List (String × Finset Nat)))
    (tcd : List (String × List (String × Finset Nat))) :
    assembleState dd mm itc tcd = (reportOps mm itc tcd).foldl applyOp (initR dd) := by
  unfold assembleState reportOps initR
  suffices h : ∀ (l : List (String × List (String × Finset Nat))) (st : RState),
      l.foldl (testStep mm itc) st = (l.flatMap (opsOfTest mm itc)).foldl applyOp st by
    exact (h tcd _).symm ▸ rfl
  intro l
  induction l with
  | nil => intro st; rfl
  | cons e rest ih =>
    intro st
    rw [List.foldl_cons, List.flatMap_cons, List.foldl_append, testStep_eq_opsfold, ih]

theorem LineDict.lookup_eq_one_iff (ld : LineDict) (k : Nat) :
    ld.lookup k = some 1 ↔ k ∈ ld.ones := by
  unfold LineDict.lookup
  by_cases h1 : k ∈ ld.ones
  · simp [h1]
  · by_cases h0 : k ∈ ld.zeros <;> simp [h1, h0]

theorem phase1Step_dataFile_other (st : RState) (t' : String) (fc : String × Finset Nat)
    (t f : String) (h : ¬ (t = t' ∧ f = fc.1)) :
    dataFile (phase1Step st t' fc).data t f = dataFile st.data t f := by
  unfold phase1Step
  dsimp only
  rw [dataFile_dataSet]
  by_cases ht : t = t'
  · rw [if_pos ht, if_neg (fun hf => h ⟨ht, hf⟩)]
  · rw [if_neg ht]

theorem phase2Step_dataFile_other (st : RState) (t' : String) (fc : String × Finset Nat)
    (t f : String) (h : ¬ (t = t' ∧ f = fc.1)) :
    dataFile (phase2Step st t' fc).data t f = dataFile st.data t f := by
  unfold phase2Step
  dsimp only
  rw [dataFile_dataSet]
  by_cases ht : t = t'
  · rw [if_pos ht, if_neg (fun hf => h ⟨ht, hf⟩)]
  · rw [if_neg ht]

theorem ph1_step_mono (st : RState) (t' : String) (fc : String × Finset Nat)
    (habs : dataFile st.data t' fc.1 = none) (t f : String) (k : Nat)
    (h : dataLeaf st.data t f k = some 1) :
    dataLeaf (phase1Step st t' fc).data t f k = some 1 := by
  by_cases hts : t = t' ∧ f = fc.1
  · exfalso
    obtain ⟨ht, hf⟩ := hts
    subst ht
    subst hf
    unfold dataLeaf at h
    rw [habs] at h
    simp [LineDict.lookup] at h
  · unfold dataLeaf
    rw [phase1Step_dataFile_other st t' fc t f hts]
    exact h

theorem ph2_step_mono (st : RState) (t' : String) (fc : String × Finset Nat)
    (hP : st.missing fc.1 ∩ (dataGetD st.data t' fc.1).ones = ∅) (t f : String) (k : Nat)
    (h : dataLeaf st.data t f k = some 1) :
    dataLeaf (phase2Step st t' fc).data t f k = some 1 := by
  by_cases hts : t = t' ∧ f = fc.1
  · obtain ⟨ht, hf⟩ := hts
    subst ht
    subst hf
    unfold dataLeaf at h ⊢
    unfold dataGetD at hP
    rw [phase2Step_dataFile, if_pos rfl, Option.getD_some]
    rw [LineDict.lookup_eq_one_iff] at h ⊢
    unfold dataGetD
    simp only [LineDict.updZeros, LineDict.updOnes]
    rw [Finset.mem_sdiff]
    constructor
    · exact Finset.mem_union_left _ h
    · intro hmem
      obtain ⟨hm, _⟩ := Finset.mem_sdiff.1 hmem
      have hin := Finset.mem_inter.2 ⟨hm, h⟩
      rw [hP] at hin
      exact absurd hin (Finset.not_mem_empty k)
  · unfold dataLeaf
    rw [phase2Step_dataFile_other st t' fc t f hts]
    exact h

theorem ph2_step_presP (st : RState) (t' : String) (fc : String × Finset Nat)
    (hP : ∀ f, st.missing f ∩ (dataGetD st.data t' f).ones = ∅) :
    ∀ f, (phase2Step st t' fc).missing f
      ∩ (dataGetD (phase2Step st t' fc).data t' f).ones = ∅ := by
  intro f
  rw [phase2Step_missing]
  unfold dataGetD
  rw [phase2Step_dataFile]
  by_cases hf : f = fc.1
  · rw [if_pos hf, if_pos hf, Option.getD_some]
    simp only [LineDict.updZeros, LineDict.updOnes]
    exact Finset.inter_sdiff_self _ _
  · rw [if_neg hf, if_neg hf]
    exact hP f

theorem ph2_fold_presP (t' : String) :
    ∀ (l : List (String × Finset Nat)) (st : RState),
      (∀ f, st.missing f ∩ (dataGetD st.data t' f).ones = ∅) →
      ∀ f, (l.foldl (fun s fc => phase2Step s t' fc) st).missing f
        ∩ (dataGetD ((l.foldl (fun s fc => phase2Step s t' fc) st).data) t' f).ones = ∅ := by
  intro l
  induction l with
  | nil => intro st h; exact h
  | cons fc rest ih =>
    intro st h
    rw [List.foldl_cons]
    exact ih _ (ph2_step_presP st t' fc h)

theorem ph2_fold_mono (t' : String) :
    ∀ (l : List (String × Finset Nat)) (st : RState),
      (∀ f, st.missing f ∩ (dataGetD st.data t' f).ones = ∅) →
      ∀ t f k, dataLeaf st.data t f k = some 1 →
      dataLeaf ((l.foldl (fun s fc => phase2Step s t' fc) st).data) t f k = some 1 := by
  intro l
  induction l with
  | nil => intro st _ t f k h; exact h
  | cons fc rest ih =>
    intro st hP t f k h
    rw [List.foldl_cons]
    exact ih _ (ph2_step_presP st t' fc hP) t f k (ph2_step_mono st t' fc (hP fc.1) t f k h)

theorem ph1_fold_mono (t' : String) :
    ∀ (l : List (String × Finset Nat)) (st : RState),
      (l.map Prod.fst).Nodup →
      (∀ fc ∈ l, dataFile st.data t' fc.1 = none) →
      ∀ t f k, dataLeaf st.data t f k = some 1 →
      dataLeaf ((l.foldl (fun s fc => phase1Step s t' fc) st).data) t f k = some 1 := by
  intro l
  induction l with
  | nil => intro st _ _ t f k h; exact h
  | cons fc rest ih =>
    intro st hnd hq t f k h
    rw [List.map_cons] at hnd
    have hnotin : fc.1 ∉ rest.map Prod.fst := (List.nodup_cons.1 hnd).1
    rw [List.foldl_cons]
    apply ih (phase1Step st t' fc) (List.nodup_cons.1 hnd).2
    · intro fc' hm
      have hne : fc'.1 ≠ fc.1 := by
        intro hq'
        exact hnotin (hq' ▸ List.mem_map_of_mem Prod.fst hm)
      rw [phase1Step_dataFile_other st t' fc t' fc'.1 (fun hp => hne hp.2)]
      exact hq fc' (List.mem_cons_of_mem _ hm)
    · exact ph1_step_mono st t' fc (hq fc (by simp)) t f k h

theorem ph1_fold_P (t' : String) (cov : List (String × Finset Nat)) (st : RState)
    (hnd : (cov.map Prod.fst).Nodup)
    (h0 : ∀ f, dataFile st.data t' f = none) :
    ∀ f, (cov.foldl (fun s fc => phase1Step s t' fc) st).missing f
      ∩ (dataGetD ((cov.foldl (fun s fc => phase1Step s t' fc) st).data) t' f).ones = ∅ := by
  intro f
  obtain ⟨hd, hm⟩ := phase1_fold_char t' cov st hnd f
  unfold dataGetD
  rw [hd, hm]
  cases hcv : alLookup cov f with
  | some c =>
    simp only [Option.getD_some, LineDict.updZeros, LineDict.setOnes]
    exact Finset.inter_sdiff_self _ _
  | none =>
    rw [h0 f]
    simp

theorem dataFile_testStep_other (mm : List (String × String))
    (itc : List (String × List (String × Finset Nat))) (st : RState)
    (tc : String × List (String × Finset Nat)) (t f : String) (h : tc.1 ≠ t) :
    dataFile (testStep mm itc st tc).data t f = dataFile st.data t f := by
  rw [testStep_eq_folds]
  rw [dataFile_phase2_fold tc.1 t f _ _ (Or.inl h)]
  rw [dataFile_phase1_fold tc.1 t f _ _ (Or.inl h)]

theorem block_mono (mm : List (String × String))
    (itc : List (String × List (String × Finset Nat)))
    (tc : String × List (String × Finset Nat)) (st : RState)
    (hnd : (tc.2.map Prod.fst).Nodup)
    (h0 : ∀ f, dataFile st.data tc.1 f = none)
    (pre post : List ROp) (hsplit : opsOfTest mm itc tc = pre ++ post)
    (t f : String) (k : Nat)
    (hleaf : dataLeaf ((pre.foldl applyOp st).data) t f k = some 1) :
    dataLeaf (((pre ++ post).foldl applyOp st).data) t f k = some 1 := by
  rw [opsOfTest_eq] at hsplit
  rcases List.append_eq_append_iff.1 hsplit with ⟨mid, hpre, hic⟩ | ⟨mid, hcov, hpost⟩
  · obtain ⟨ic1, ic2, hicsplit, hmid, hpost2⟩ := List.map_eq_append_iff.1 hic
    have hS1 : pre.foldl applyOp st
        = ic1.foldl (fun s fc => phase2Step s tc.1 fc)
            (tc.2.foldl (fun s fc => phase1Step s tc.1 fc) st) := by
      rw [hpre, List.foldl_append, foldl_applyOp_ph1, ← hmid, foldl_applyOp_ph2]
    have hP1 := ph1_fold_P tc.1 tc.2 st hnd h0
    have hP2 := ph2_fold_presP tc.1 ic1 _ hP1
    have htgt : (pre ++ post).foldl applyOp st
        = ic2.foldl (fun s fc => phase2Step s tc.1 fc) (pre.foldl applyOp st) := by
      rw [List.foldl_append, ← hpost2, foldl_applyOp_ph2]
    rw [htgt, hS1]
    rw [hS1] at hleaf
    exact ph2_fold_mono tc.1 ic2 _ hP2 t f k hleaf
  · obtain ⟨cov1, cov2, hcovsplit, hpre2, hmid⟩ := List.map_eq_append_iff.1 hcov
    have hndall := hnd
    rw [hcovsplit, List.map_append] at hndall
    obtain ⟨hnd1, hnd2, hdisj⟩ := List.nodup_append.1 hndall
    have hq : ∀ fc ∈ cov2,
        dataFile ((cov1.foldl (fun s fc => phase1Step s tc.1 fc) st).data) tc.1 fc.1
          = none := by
      intro fc hm
      obtain ⟨hd, _⟩ := phase1_fold_char tc.1 cov1 st hnd1 fc.1
      have hnone : alLookup cov1 fc.1 = none := by
        apply alLookup_eq_none_of_not_mem
        intro hmem
        exact hdisj hmem (List.mem_map_of_mem Prod.fst hm)
      rw [hd, hnone]
      exact h0 fc.1
    have hpreS : pre.foldl applyOp st
        = cov1.foldl (fun s fc => phase1Step s tc.1 fc) st := by
      rw [← hpre2, foldl_applyOp_ph1]
    have hleaf2 : dataLeaf ((tc.2.foldl (fun s fc => phase1Step s tc.1 fc) st).data) t f k
        = some 1 := by
      rw [hpreS] at hleaf
      have hstep := ph1_fold_mono tc.1 cov2 _ hnd2 hq t f k hleaf
      rw [hcovsplit, List.foldl_append]
      exact hstep
    have hP := ph1_fold_P tc.1 tc.2 st hnd h0
    have htgt : (pre ++ post).foldl applyOp st
        = (effIcov mm itc tc.1).foldl (fun s fc => phase2Step s tc.1 fc)
            (tc.2.foldl (fun s fc => phase1Step s tc.1 fc) st) := by
      rw [hpost, ← List.append_assoc, ← hcov, List.foldl_append, foldl_applyOp_ph1,
        foldl_applyOp_ph2]
    rw [htgt]
    exact ph2_fold_mono tc.1 _ _ hP t f k hleaf2

theorem reportOps_mono (mm : List (String × String))
    (itc : List (String × List (String × Finset Nat))) :
    ∀ (tcd : List (String × List (String × Finset Nat))) (st : RState),
      (tcd.map Prod.fst).Nodup →
      (∀ e ∈ tcd, (e.2.map Prod.fst).Nodup) →
      (∀ t' ∈ tcd.map Prod.fst, ∀ f, dataFile st.data t' f = none) →
      ∀ pre post, tcd.flatMap (opsOfTest mm itc) = pre ++ post →
      ∀ t f k, dataLeaf ((pre.foldl applyOp st).data) t f k = some 1 →
      dataLeaf (((pre ++ post).foldl applyOp st).data) t f k = some 1 := by
  intro tcd
  induction tcd with
  | nil =>
    intro st _ _ _ pre post hsplit t f k h
    rw [List.flatMap_nil] at hsplit
    obtain ⟨hp, hq⟩ := List.append_eq_nil.1 hsplit.symm
    subst hp
    subst hq
    exact h
  | cons e rest ih =>
    intro st hndT hndC h0 pre post hsplit t f k hleaf
    rw [List.flatMap_cons] at hsplit
    have hT := hndT
    rw [List.map_cons] at hT
    have hnotinT : e.1 ∉ rest.map Prod.fst := (List.nodup_cons.1 hT).1
    have hndT' : (rest.map Prod.fst).Nodup := (List.nodup_cons.1 hT).2
    have h0' : ∀ t' ∈ rest.map Prod.fst, ∀ f',
        dataFile ((testStep mm itc st e).data) t' f' = none := by
      intro t' hm f'
      have hne : e.1 ≠ t' := fun hq => hnotinT (hq ▸ hm)
      rw [dataFile_testStep_other mm itc st e t' f' hne]
      exact h0 t' (List.mem_cons_of_mem _ hm) f'
    have hndC' : ∀ e' ∈ rest, (e'.2.map Prod.fst).Nodup :=
      fun e' hm => hndC e' (List.mem_cons_of_mem _ hm)
    rcases List.append_eq_append_iff.1 hsplit with ⟨mid, hpre, hrest⟩ | ⟨mid, hblock, hpost⟩
    · have hleafS : dataLeaf ((mid.foldl applyOp (testStep mm itc st e)).data) t f k
          = some 1 := by
        rw [hpre, List.foldl_append, testStep_eq_opsfold] at hleaf
        exact hleaf
      have hIH := ih (testStep mm itc st e) hndT' hndC' h0' mid post hrest t f k hleafS
      rw [hpre, List.append_assoc, List.foldl_append, testStep_eq_opsfold]
      exact hIH
    · have h0e : ∀ f', dataFile st.data e.1 f' = none := h0 e.1 (by simp)
      have hndCe : (e.2.map Prod.fst).Nodup := hndC e (by simp)
      have hb := block_mono mm itc e st hndCe h0e pre mid hblock t f k hleaf
      have hS1eq : (pre ++ mid).foldl applyOp st = testStep mm itc st e := by
        rw [← hblock, testStep_eq_opsfold]
      rw [hS1eq] at hb
      have hIH := ih (testStep mm itc st e) hndT' hndC' h0'
        [] (rest.flatMap (opsOfTest mm itc)) rfl t f k hb
      rw [hpost, ← List.append_assoc, List.foldl_append, hS1eq]
      exact hIH

/-- C3: once a (test, file, line) leaf has been set to 1 by any merge step
of the report assembly, no later merge or update step resets it to 0: for
every decomposition of the assembly's step sequence (reportOps, whose
fold is assembleState by assembleState_eq_reportOps) into pre ++ post, a
leaf equal to 1 after pre is still 1 after the remaining steps. -/
theorem C3_monotone_merge (dd : DD) (mm : List (String × String))
    (itc : List (String × List (String × Finset Nat)))
    (tcd : List (String × List (String × Finset Nat)))
    (h1 : (tcd.map Prod.fst).Nodup)
    (h2 : ∀ e ∈ tcd, (e.2.map Prod.fst).Nodup)
    (pre post : List ROp) (hsplit : reportOps mm itc tcd = pre ++ post)
    (t f : String) (k : Nat)
    (hleaf : dataLeaf ((pre.foldl applyOp (initR dd)).data) t f k = some 1) :
    dataLeaf (((pre ++ post).foldl applyOp (initR dd)).data) t f k = some 1 :=
  reportOps_mono mm itc tcd (initR dd) h1 h2 (fun _ _ _ => rfl) pre post hsplit t f k hleaf

/-- Witness for C3: the monotonicity theorem applied to the concrete
two-step assembly of the order-dependence scenario — test A's leaf for
f.py line 1, set to 1 by A's merge step, is still 1 after B's overlay
step. -/
theorem C3_monotone_merge_witness :
    dataLeaf ((([ROp.ph1 ("A") ("f.py") ({1} : Finset Nat)]
        ++ [ROp.ph2 ("B") ("f.py") ({1} : Finset Nat)]).foldl applyOp (initR ddC2)).data)
      ("A") ("f.py") 1 = some 1 :=
  C3_monotone_merge ddC2 mmC2 itcC2 tcdAB (by decide) (by decide)
    [ROp.ph1 ("A") ("f.py") ({1} : Finset Nat)]
    [ROp.ph2 ("B") ("f.py") ({1} : Finset Nat)]
    (by decide) ("A") ("f.py") 1 (by decide)
